import Mathlib

/-!
# Verification of the cross-mesh generator (`cross/meshgen/cross.py`)

Shallow embedding of the structured-grid topology builder, boundary
classifier and boundary-layer grading solver of `cross.py`.

The topology functions (`generate_points`, `generate_lines`,
`generate_surfaces`, `add_physical_groups`, `add_special_boundary_group`)
depend on the coordinate lists only through their lengths, so they are
embedded over the lattice extents `Nx = len(coord_x)`, `Ny = len(coord_y)`.
Grid indices are integers (the neighbour tests of
`add_special_boundary_group` form indices such as `i - 1` that can be
negative, and Python tests them against the exclusion list just the same).
Gmsh point/line/surface tags are in bijection with the index keys the code
stores them under (`point_map`, `line_map`, cell `(i, j)` for surfaces), so
entities are represented by those keys.

The grading solver `generate_data` is embedded over the real numbers
(`np.sqrt` becomes `Real.sqrt`, `np.ceil` becomes `Int.ceil`).
-/

namespace Cross

/-- The keys of `point_map` (equivalently the points realised by
`generate_points`, one per `point_tags` entry): every `(i, j)` with
`0 ≤ i < Nx`, `0 ≤ j < Ny` not in `exclude`, in the source's enumeration
order (lexicographic in `(i, j)`). -/
def generate_points (Nx Ny : ℕ) (exclude : List (ℤ × ℤ)) : List (ℤ × ℤ) :=
  (List.range Nx).flatMap fun i : ℕ =>
    (List.range Ny).filterMap fun j : ℕ =>
      if ((i : ℤ), (j : ℤ)) ∈ exclude then none
      else some ((i : ℤ), (j : ℤ))

/-- The keys of `line_map` built by `generate_lines`, in insertion order:
first the x-parallel lines `(i, j, i+1, j)` for `i < Nx - 1`, `j < Ny`,
then the y-parallel lines `(i, j, i, j+1)` for `i < Nx`, `j < Ny - 1`,
skipping any line with an excluded endpoint. -/
def generate_lines (Nx Ny : ℕ) (exclude : List (ℤ × ℤ)) :
    List (ℤ × ℤ × ℤ × ℤ) :=
  ((List.range (Nx - 1)).flatMap fun i : ℕ =>
    (List.range Ny).filterMap fun j : ℕ =>
      if ((i : ℤ), (j : ℤ)) ∈ exclude ∨ ((i : ℤ) + 1, (j : ℤ)) ∈ exclude then
        none
      else some ((i : ℤ), (j : ℤ), (i : ℤ) + 1, (j : ℤ))) ++
  ((List.range Nx).flatMap fun i : ℕ =>
    (List.range (Ny - 1)).filterMap fun j : ℕ =>
      if ((i : ℤ), (j : ℤ)) ∈ exclude ∨ ((i : ℤ), (j : ℤ) + 1) ∈ exclude then
        none
      else some ((i : ℤ), (j : ℤ), (i : ℤ), (j : ℤ) + 1))

/-- The surfaces realised by `generate_surfaces`, identified by the cell
index `(i, j)` of their lower-left corner: every cell with `i < Nx - 1`,
`j < Ny - 1` none of whose four corners is excluded (the four bounding
lines looked up in `line_map` are then present by construction). -/
def generate_surfaces (Nx Ny : ℕ) (exclude : List (ℤ × ℤ)) : List (ℤ × ℤ) :=
  (List.range (Nx - 1)).flatMap fun i : ℕ =>
    (List.range (Ny - 1)).filterMap fun j : ℕ =>
      if ((i : ℤ), (j : ℤ)) ∈ exclude ∨ ((i : ℤ) + 1, (j : ℤ)) ∈ exclude ∨
          ((i : ℤ), (j : ℤ) + 1) ∈ exclude ∨
          ((i : ℤ) + 1, (j : ℤ) + 1) ∈ exclude then
        none
      else some ((i : ℤ), (j : ℤ))

/-- The two endpoint indices of a line key `(i1, j1, i2, j2)`. -/
def edgeEndpoints (e : ℤ × ℤ × ℤ × ℤ) : List (ℤ × ℤ) :=
  [(e.1, e.2.1), (e.2.2.1, e.2.2.2)]

/-- The four corner indices of the cell `(i, j)`. -/
def faceCorners (c : ℤ × ℤ) : List (ℤ × ℤ) :=
  [(c.1, c.2), (c.1 + 1, c.2), (c.1, c.2 + 1), (c.1 + 1, c.2 + 1)]

/-- The filter loop of `add_special_boundary_group`: the lines not already
in an existing physical group whose perpendicular-neighbour test against
`exclude` fires.  For a key `(i1, j1, i2, j2)` the source tests
`i1 == i2` first (y-parallel: neighbours `(i1∓1, j1)`, `(i1∓1, j2)`),
then `j1 == j2` (x-parallel: neighbours `(i1, j1∓1)`, `(i2, j2∓1)`). -/
def special_lines (lines : List (ℤ × ℤ × ℤ × ℤ)) (exclude : List (ℤ × ℤ))
    (existing_groups : List (List (ℤ × ℤ × ℤ × ℤ))) :
    List (ℤ × ℤ × ℤ × ℤ) :=
  lines.filter fun e =>
    let i1 := e.1
    let j1 := e.2.1
    let i2 := e.2.2.1
    let j2 := e.2.2.2
    decide (e ∉ existing_groups.flatten) &&
      (if i1 = i2 then
        decide ((i1 - 1, j1) ∈ exclude ∨ (i1 + 1, j1) ∈ exclude ∨
          (i1 - 1, j2) ∈ exclude ∨ (i1 + 1, j2) ∈ exclude)
      else if j1 = j2 then
        decide ((i1, j1 - 1) ∈ exclude ∨ (i1, j1 + 1) ∈ exclude ∨
          (i2, j2 - 1) ∈ exclude ∨ (i2, j2 + 1) ∈ exclude)
      else false)

/-- `add_special_boundary_group`: the "InternalSide" physical group, created
only when its member list is non-empty (`if special_lines:` in the
source). -/
def add_special_boundary_group (lines : List (ℤ × ℤ × ℤ × ℤ))
    (exclude : List (ℤ × ℤ))
    (existing_groups : List (List (ℤ × ℤ × ℤ × ℤ))) :
    Option (List (ℤ × ℤ × ℤ × ℤ)) :=
  let sp := special_lines lines exclude existing_groups
  if sp = [] then none else some sp

/-- The "LeftSide" group of `add_physical_groups`: y-parallel line keys at
`i = 0` whose endpoints are not excluded. -/
def left_lines (Ny : ℕ) (exclude : List (ℤ × ℤ)) : List (ℤ × ℤ × ℤ × ℤ) :=
  (List.range (Ny - 1)).filterMap fun j : ℕ =>
    if (0, (j : ℤ)) ∈ exclude ∨ (0, (j : ℤ) + 1) ∈ exclude then none
    else some (0, (j : ℤ), 0, (j : ℤ) + 1)

/-- The "RightSide" group: y-parallel line keys at `i = Nx - 1` whose
endpoints are not excluded. -/
def right_lines (Nx Ny : ℕ) (exclude : List (ℤ × ℤ)) :
    List (ℤ × ℤ × ℤ × ℤ) :=
  (List.range (Ny - 1)).filterMap fun j : ℕ =>
    if ((Nx : ℤ) - 1, (j : ℤ)) ∈ exclude ∨
        ((Nx : ℤ) - 1, (j : ℤ) + 1) ∈ exclude then none
    else some ((Nx : ℤ) - 1, (j : ℤ), (Nx : ℤ) - 1, (j : ℤ) + 1)

/-- The "BottomSide" group: x-parallel line keys at `j = 0` whose endpoints
are not excluded. -/
def bottom_lines (Nx : ℕ) (exclude : List (ℤ × ℤ)) : List (ℤ × ℤ × ℤ × ℤ) :=
  (List.range (Nx - 1)).filterMap fun i : ℕ =>
    if ((i : ℤ), 0) ∈ exclude ∨ ((i : ℤ) + 1, 0) ∈ exclude then none
    else some ((i : ℤ), 0, (i : ℤ) + 1, 0)

/-- The "TopSide" group: x-parallel line keys at `j = Ny - 1` whose
endpoints are not excluded. -/
def top_lines (Nx Ny : ℕ) (exclude : List (ℤ × ℤ)) :
    List (ℤ × ℤ × ℤ × ℤ) :=
  (List.range (Nx - 1)).filterMap fun i : ℕ =>
    if ((i : ℤ), (Ny : ℤ) - 1) ∈ exclude ∨
        ((i : ℤ) + 1, (Ny : ℤ) - 1) ∈ exclude then none
    else some ((i : ℤ), (Ny : ℤ) - 1, (i : ℤ) + 1, (Ny : ℤ) - 1)

/-- The physical groups declared by `add_physical_groups`: the four outer
side groups (tags 1-4), the optional "InternalSide" group (tag 5) and the
"Domain" surface group (tag 1000). -/
structure PhysicalGroups where
  left : List (ℤ × ℤ × ℤ × ℤ)
  right : List (ℤ × ℤ × ℤ × ℤ)
  bottom : List (ℤ × ℤ × ℤ × ℤ)
  top : List (ℤ × ℤ × ℤ × ℤ)
  internal : Option (List (ℤ × ℤ × ℤ × ℤ))
  domain : List (ℤ × ℤ)

/-- `add_physical_groups`, with `lines` and `surfaces` passed in as in the
source (`Nx`, `Ny` stand for `len(coord_x)`, `len(coord_y)`). -/
def add_physical_groups (Nx Ny : ℕ) (lines : List (ℤ × ℤ × ℤ × ℤ))
    (surfaces : List (ℤ × ℤ)) (exclude : List (ℤ × ℤ)) : PhysicalGroups :=
  let left := left_lines Ny exclude
  let right := right_lines Nx Ny exclude
  let bottom := bottom_lines Nx exclude
  let top := top_lines Nx Ny exclude
  { left := left, right := right, bottom := bottom, top := top,
    internal := add_special_boundary_group lines exclude
      [left, right, bottom, top],
    domain := surfaces }

/-- The claim's perpendicular-neighbour rule: a y-parallel edge between
`(i, j1)` and `(i, j2)` with `j2 = j1 + 1` has at least one of
`(i - 1, j1)`, `(i + 1, j1)`, `(i - 1, j2)`, `(i + 1, j2)` excluded, and
an x-parallel edge the analogous neighbours offset in `j`. -/
def perpNeighborExcluded (e : ℤ × ℤ × ℤ × ℤ) (E : List (ℤ × ℤ)) : Prop :=
  (∃ i j1 j2 : ℤ, e = (i, j1, i, j2) ∧ j2 = j1 + 1 ∧
    ((i - 1, j1) ∈ E ∨ (i + 1, j1) ∈ E ∨ (i - 1, j2) ∈ E ∨
      (i + 1, j2) ∈ E)) ∨
  (∃ i1 i2 j : ℤ, e = (i1, j, i2, j) ∧ i2 = i1 + 1 ∧
    ((i1, j - 1) ∈ E ∨ (i1, j + 1) ∈ E ∨ (i2, j - 1) ∈ E ∨
      (i2, j + 1) ∈ E))

/-- A `filterMap` that keeps every element is a `map`, so it preserves
length. -/
theorem length_filterMap_some {α β : Type} (g : α → β) (l : List α) :
    (l.filterMap fun a => some (g a)).length = l.length := by
  have h : (l.filterMap fun a => some (g a)) = l.map g :=
    congrFun (List.filterMap_eq_map g) l
  simp [h]

theorem generate_points_nil_length (Nx Ny : ℕ) :
    (generate_points Nx Ny []).length = Nx * Ny := by
  simp [generate_points, List.length_flatMap, Function.comp_def,
    length_filterMap_some, List.map_const', mul_comm]

theorem generate_lines_nil_length (Nx Ny : ℕ) :
    (generate_lines Nx Ny []).length = (Nx - 1) * Ny + Nx * (Ny - 1) := by
  simp [generate_lines, List.length_flatMap, Function.comp_def,
    length_filterMap_some, List.map_const', mul_comm]

theorem generate_surfaces_nil_length (Nx Ny : ℕ) :
    (generate_surfaces Nx Ny []).length = (Nx - 1) * (Ny - 1) := by
  simp [generate_surfaces, List.length_flatMap, Function.comp_def,
    length_filterMap_some, List.map_const', mul_comm]

/-- C1: with an empty exclusion set the topology build produces `Nx * Ny`
nodes, `(Nx - 1) * Ny + Nx * (Ny - 1)` edges and `(Nx - 1) * (Ny - 1)`
faces, for every pair of axis lengths `Nx`, `Ny`; in particular `9`
nodes, `12` edges and `4` faces for `Nx = Ny = 3`. -/
theorem topology_counts_empty_exclusion (Nx Ny : ℕ) :
    (generate_points Nx Ny []).length = Nx * Ny ∧
    (generate_lines Nx Ny []).length = (Nx - 1) * Ny + Nx * (Ny - 1) ∧
    (generate_surfaces Nx Ny []).length = (Nx - 1) * (Ny - 1) ∧
    ((generate_points 3 3 []).length = 9 ∧
      (generate_lines 3 3 []).length = 12 ∧
      (generate_surfaces 3 3 []).length = 4) :=
  ⟨generate_points_nil_length Nx Ny, generate_lines_nil_length Nx Ny,
    generate_surfaces_nil_length Nx Ny, by decide, by decide, by decide⟩

/-- Membership in `generate_points`: an index pair is realised iff it lies
in the lattice and is not excluded. -/
theorem mem_generate_points {Nx Ny : ℕ} {E : List (ℤ × ℤ)} {p : ℤ × ℤ} :
    p ∈ generate_points Nx Ny E ↔
      (∃ i < Nx, ∃ j < Ny, p = ((i : ℤ), (j : ℤ))) ∧ p ∉ E := by
  simp only [generate_points, List.mem_flatMap, List.mem_filterMap,
    List.mem_range, Option.ite_none_left_eq_some, Option.some.injEq]
  constructor
  · rintro ⟨i, hi, j, hj, hE, rfl⟩
    exact ⟨⟨i, hi, j, hj, rfl⟩, hE⟩
  · rintro ⟨⟨i, hi, j, hj, rfl⟩, hE⟩
    exact ⟨i, hi, j, hj, hE, rfl⟩

/-- Membership in `generate_lines`: a line key is realised iff it is an
in-range x- or y-parallel adjacent pair and neither endpoint is excluded. -/
theorem mem_generate_lines {Nx Ny : ℕ} {E : List (ℤ × ℤ)}
    {e : ℤ × ℤ × ℤ × ℤ} :
    e ∈ generate_lines Nx Ny E ↔
      ((∃ i < Nx - 1, ∃ j < Ny, e = ((i : ℤ), (j : ℤ), (i : ℤ) + 1, (j : ℤ))) ∨
        (∃ i < Nx, ∃ j < Ny - 1,
          e = ((i : ℤ), (j : ℤ), (i : ℤ), (j : ℤ) + 1))) ∧
      ∀ q ∈ edgeEndpoints e, q ∉ E := by
  simp only [generate_lines, List.mem_append, List.mem_flatMap,
    List.mem_filterMap, List.mem_range, Option.ite_none_left_eq_some,
    Option.some.injEq, not_or]
  constructor
  · rintro (⟨i, hi, j, hj, ⟨h1, h2⟩, rfl⟩ | ⟨i, hi, j, hj, ⟨h1, h2⟩, rfl⟩)
    · exact ⟨Or.inl ⟨i, hi, j, hj, rfl⟩, by simp [edgeEndpoints]; exact ⟨h1, h2⟩⟩
    · exact ⟨Or.inr ⟨i, hi, j, hj, rfl⟩, by simp [edgeEndpoints]; exact ⟨h1, h2⟩⟩
  · rintro ⟨⟨i, hi, j, hj, rfl⟩ | ⟨i, hi, j, hj, rfl⟩, hE⟩
    · refine Or.inl ⟨i, hi, j, hj, ⟨?_, ?_⟩, rfl⟩
      · exact hE _ (by simp [edgeEndpoints])
      · exact hE _ (by simp [edgeEndpoints])
    · refine Or.inr ⟨i, hi, j, hj, ⟨?_, ?_⟩, rfl⟩
      · exact hE _ (by simp [edgeEndpoints])
      · exact hE _ (by simp [edgeEndpoints])

/-- Membership in `generate_surfaces`: a cell is realised iff it is in
range and none of its four corners is excluded. -/
theorem mem_generate_surfaces {Nx Ny : ℕ} {E : List (ℤ × ℤ)} {c : ℤ × ℤ} :
    c ∈ generate_surfaces Nx Ny E ↔
      (∃ i < Nx - 1, ∃ j < Ny - 1, c = ((i : ℤ), (j : ℤ))) ∧
      ∀ q ∈ faceCorners c, q ∉ E := by
  simp only [generate_surfaces, List.mem_flatMap, List.mem_filterMap,
    List.mem_range, Option.ite_none_left_eq_some, Option.some.injEq, not_or]
  constructor
  · rintro ⟨i, hi, j, hj, ⟨h1, h2, h3, h4⟩, rfl⟩
    refine ⟨⟨i, hi, j, hj, rfl⟩, ?_⟩
    simp [faceCorners]
    exact ⟨h1, h2, h3, h4⟩
  · rintro ⟨⟨i, hi, j, hj, rfl⟩, hE⟩
    refine ⟨i, hi, j, hj, ⟨?_, ?_, ?_, ?_⟩, rfl⟩ <;>
      exact hE _ (by simp [faceCorners])

/-- C2: locality of exclusion.  Every node in `E`, edge with an endpoint in
`E`, or face with a corner in `E` is absent from the respective output, and
every node, edge or face whose index set is disjoint from `E` is present
exactly as with empty exclusion. -/
theorem exclusion_locality (Nx Ny : ℕ) (E : List (ℤ × ℤ)) :
    (∀ p : ℤ × ℤ, p ∈ E → p ∉ generate_points Nx Ny E) ∧
    (∀ e : ℤ × ℤ × ℤ × ℤ, (∃ q ∈ edgeEndpoints e, q ∈ E) →
      e ∉ generate_lines Nx Ny E) ∧
    (∀ c : ℤ × ℤ, (∃ q ∈ faceCorners c, q ∈ E) →
      c ∉ generate_surfaces Nx Ny E) ∧
    (∀ p : ℤ × ℤ, p ∉ E →
      (p ∈ generate_points Nx Ny E ↔ p ∈ generate_points Nx Ny [])) ∧
    (∀ e : ℤ × ℤ × ℤ × ℤ, (∀ q ∈ edgeEndpoints e, q ∉ E) →
      (e ∈ generate_lines Nx Ny E ↔ e ∈ generate_lines Nx Ny [])) ∧
    (∀ c : ℤ × ℤ, (∀ q ∈ faceCorners c, q ∉ E) →
      (c ∈ generate_surfaces Nx Ny E ↔ c ∈ generate_surfaces Nx Ny [])) := by
  refine ⟨?_, ?_, ?_, ?_, ?_, ?_⟩
  · intro p hp hmem
    exact (mem_generate_points.mp hmem).2 hp
  · rintro e ⟨q, hq, hqE⟩ hmem
    exact (mem_generate_lines.mp hmem).2 q hq hqE
  · rintro c ⟨q, hq, hqE⟩ hmem
    exact (mem_generate_surfaces.mp hmem).2 q hq hqE
  · intro p hp
    rw [mem_generate_points, mem_generate_points]
    simp [hp]
  · intro e he
    rw [mem_generate_lines, mem_generate_lines]
    simp only [List.not_mem_nil, not_false_iff, imp_true_iff, and_true]
    exact and_iff_left he
  · intro c hc
    rw [mem_generate_surfaces, mem_generate_surfaces]
    simp only [List.not_mem_nil, not_false_iff, imp_true_iff, and_true]
    exact and_iff_left hc

/-- An edge of `generate_lines` passes the `add_special_boundary_group`
filter iff it is outside every existing group and its perpendicular
neighbours meet the exclusion set. -/
theorem mem_special_lines_generate {Nx Ny : ℕ} {E : List (ℤ × ℤ)}
    {gs : List (List (ℤ × ℤ × ℤ × ℤ))} {e : ℤ × ℤ × ℤ × ℤ} :
    e ∈ special_lines (generate_lines Nx Ny E) E gs ↔
      e ∈ generate_lines Nx Ny E ∧ e ∉ gs.flatten ∧
        perpNeighborExcluded e E := by
  rw [special_lines, List.mem_filter]
  constructor
  · rintro ⟨he, htest⟩
    refine ⟨he, ?_⟩
    simp only [Bool.and_eq_true, decide_eq_true_eq] at htest
    obtain ⟨hng, htest⟩ := htest
    refine ⟨hng, ?_⟩
    obtain ⟨hshape, -⟩ := mem_generate_lines.mp he
    rcases hshape with ⟨i, hi, j, hj, rfl⟩ | ⟨i, hi, j, hj, rfl⟩
    · have hne : ((i : ℤ)) ≠ (i : ℤ) + 1 := by omega
      simp [hne] at htest
      exact Or.inr ⟨(i : ℤ), (i : ℤ) + 1, (j : ℤ), rfl, rfl, by tauto⟩
    · simp at htest
      exact Or.inl ⟨(i : ℤ), (j : ℤ), (j : ℤ) + 1, rfl, rfl, by tauto⟩
  · rintro ⟨he, hng, hperp⟩
    refine ⟨he, ?_⟩
    simp only [Bool.and_eq_true, decide_eq_true_eq]
    refine ⟨hng, ?_⟩
    obtain ⟨hshape, -⟩ := mem_generate_lines.mp he
    rcases hshape with ⟨i, hi, j, hj, rfl⟩ | ⟨i, hi, j, hj, rfl⟩
    · have hne : ((i : ℤ)) ≠ (i : ℤ) + 1 := by omega
      simp [hne]
      rcases hperp with ⟨i0, j1, j2, heq, -, -⟩ | ⟨i1, i2, j0, heq, h21, hmem⟩
      · obtain ⟨h1, h2, h3, h4⟩ : (i : ℤ) = i0 ∧ (j : ℤ) = j1 ∧
            (i : ℤ) + 1 = i0 ∧ (j : ℤ) = j2 := by
          simpa [Prod.ext_iff] using heq
        omega
      · obtain ⟨h1, h2, h3, h4⟩ : (i : ℤ) = i1 ∧ (j : ℤ) = j0 ∧
            (i : ℤ) + 1 = i2 ∧ (j : ℤ) = j0 := by
          simpa [Prod.ext_iff] using heq
        subst h1; subst h2
        rw [← h3] at hmem
        tauto
    · simp
      rcases hperp with ⟨i0, j1, j2, heq, h21, hmem⟩ | ⟨i1, i2, j0, heq, h21, hmem⟩
      · obtain ⟨h1, h2, h3, h4⟩ : (i : ℤ) = i0 ∧ (j : ℤ) = j1 ∧
            (i : ℤ) = i0 ∧ (j : ℤ) + 1 = j2 := by
          simpa [Prod.ext_iff] using heq
        subst h1; subst h2
        rw [← h4] at hmem
        tauto
      · obtain ⟨h1, h2, h3, h4⟩ : (i : ℤ) = i1 ∧ (j : ℤ) = j0 ∧
            (i : ℤ) = i2 ∧ (j : ℤ) + 1 = j0 := by
          simpa [Prod.ext_iff] using heq
        omega

/-- C3: over the realized edges with the four outer groups as the existing
groups (the configuration of `add_physical_groups`), the internal group's
member list holds exactly the edges outside every outer group with an
excluded perpendicular neighbour, and the group is omitted (`none`) iff no
realized edge qualifies. -/
theorem internal_group_exact (Nx Ny : ℕ) (E : List (ℤ × ℤ)) :
    (∀ e : ℤ × ℤ × ℤ × ℤ,
      e ∈ special_lines (generate_lines Nx Ny E) E
          [left_lines Ny E, right_lines Nx Ny E, bottom_lines Nx E,
            top_lines Nx Ny E] ↔
        e ∈ generate_lines Nx Ny E ∧
        e ∉ [left_lines Ny E, right_lines Nx Ny E, bottom_lines Nx E,
            top_lines Nx Ny E].flatten ∧
        perpNeighborExcluded e E) ∧
    (add_special_boundary_group (generate_lines Nx Ny E) E
        [left_lines Ny E, right_lines Nx Ny E, bottom_lines Nx E,
          top_lines Nx Ny E] = none ↔
      ∀ e ∈ generate_lines Nx Ny E,
        ¬(e ∉ [left_lines Ny E, right_lines Nx Ny E, bottom_lines Nx E,
            top_lines Nx Ny E].flatten ∧ perpNeighborExcluded e E)) := by
  refine ⟨fun e => mem_special_lines_generate, ?_⟩
  rw [add_special_boundary_group]
  have h1 : ∀ sp : List (ℤ × ℤ × ℤ × ℤ),
      (if sp = [] then none else some sp) =
        (none : Option (List (ℤ × ℤ × ℤ × ℤ))) ↔ sp = [] := by
    intro sp
    split <;> simp_all
  rw [h1, List.eq_nil_iff_forall_not_mem]
  constructor
  · intro h e he hq
    exact h e (mem_special_lines_generate.mpr ⟨he, hq.1, hq.2⟩)
  · intro h e hmem
    obtain ⟨he, h2, h3⟩ := mem_special_lines_generate.mp hmem
    exact h e he ⟨h2, h3⟩

/-- The claim's "lies on the domain perimeter": a y-parallel edge
(`i1 = i2`) at `i = 0` or `i = Nx - 1`, or an x-parallel edge
(`j1 = j2`) at `j = 0` or `j = Ny - 1`. -/
def onOuterBoundary (Nx Ny : ℕ) (e : ℤ × ℤ × ℤ × ℤ) : Prop :=
  (e.1 = e.2.2.1 ∧ (e.1 = 0 ∨ e.1 = (Nx : ℤ) - 1)) ∨
  (e.2.1 = e.2.2.2 ∧ (e.2.1 = 0 ∨ e.2.1 = (Ny : ℤ) - 1))

theorem mem_left_lines {Ny : ℕ} {E : List (ℤ × ℤ)} {e : ℤ × ℤ × ℤ × ℤ} :
    e ∈ left_lines Ny E ↔
      ∃ j < Ny - 1, e = (0, (j : ℤ), 0, (j : ℤ) + 1) ∧
        (0, (j : ℤ)) ∉ E ∧ (0, (j : ℤ) + 1) ∉ E := by
  simp only [left_lines, List.mem_filterMap, List.mem_range,
    Option.ite_none_left_eq_some, Option.some.injEq, not_or]
  constructor
  · rintro ⟨j, hj, ⟨h1, h2⟩, rfl⟩
    exact ⟨j, hj, rfl, h1, h2⟩
  · rintro ⟨j, hj, rfl, h1, h2⟩
    exact ⟨j, hj, ⟨h1, h2⟩, rfl⟩

theorem mem_right_lines {Nx Ny : ℕ} {E : List (ℤ × ℤ)} {e : ℤ × ℤ × ℤ × ℤ} :
    e ∈ right_lines Nx Ny E ↔
      ∃ j < Ny - 1, e = ((Nx : ℤ) - 1, (j : ℤ), (Nx : ℤ) - 1, (j : ℤ) + 1) ∧
        ((Nx : ℤ) - 1, (j : ℤ)) ∉ E ∧ ((Nx : ℤ) - 1, (j : ℤ) + 1) ∉ E := by
  simp only [right_lines, List.mem_filterMap, List.mem_range,
    Option.ite_none_left_eq_some, Option.some.injEq, not_or]
  constructor
  · rintro ⟨j, hj, ⟨h1, h2⟩, rfl⟩
    exact ⟨j, hj, rfl, h1, h2⟩
  · rintro ⟨j, hj, rfl, h1, h2⟩
    exact ⟨j, hj, ⟨h1, h2⟩, rfl⟩

theorem mem_bottom_lines {Nx : ℕ} {E : List (ℤ × ℤ)} {e : ℤ × ℤ × ℤ × ℤ} :
    e ∈ bottom_lines Nx E ↔
      ∃ i < Nx - 1, e = ((i : ℤ), 0, (i : ℤ) + 1, 0) ∧
        ((i : ℤ), 0) ∉ E ∧ ((i : ℤ) + 1, 0) ∉ E := by
  simp only [bottom_lines, List.mem_filterMap, List.mem_range,
    Option.ite_none_left_eq_some, Option.some.injEq, not_or]
  constructor
  · rintro ⟨i, hi, ⟨h1, h2⟩, rfl⟩
    exact ⟨i, hi, rfl, h1, h2⟩
  · rintro ⟨i, hi, rfl, h1, h2⟩
    exact ⟨i, hi, ⟨h1, h2⟩, rfl⟩

theorem mem_top_lines {Nx Ny : ℕ} {E : List (ℤ × ℤ)} {e : ℤ × ℤ × ℤ × ℤ} :
    e ∈ top_lines Nx Ny E ↔
      ∃ i < Nx - 1, e = ((i : ℤ), (Ny : ℤ) - 1, (i : ℤ) + 1, (Ny : ℤ) - 1) ∧
        ((i : ℤ), (Ny : ℤ) - 1) ∉ E ∧ ((i : ℤ) + 1, (Ny : ℤ) - 1) ∉ E := by
  simp only [top_lines, List.mem_filterMap, List.mem_range,
    Option.ite_none_left_eq_some, Option.some.injEq, not_or]
  constructor
  · rintro ⟨i, hi, ⟨h1, h2⟩, rfl⟩
    exact ⟨i, hi, rfl, h1, h2⟩
  · rintro ⟨i, hi, rfl, h1, h2⟩
    exact ⟨i, hi, ⟨h1, h2⟩, rfl⟩

/-- Unfolding the optional internal group: an edge belongs to the created
group (empty list when the group is omitted) iff it passes the
`special_lines` filter. -/
theorem mem_internal_getD {lines : List (ℤ × ℤ × ℤ × ℤ)}
    {E : List (ℤ × ℤ)} {gs : List (List (ℤ × ℤ × ℤ × ℤ))}
    {e : ℤ × ℤ × ℤ × ℤ} :
    e ∈ (add_special_boundary_group lines E gs).getD [] ↔
      e ∈ special_lines lines E gs := by
  rw [add_special_boundary_group]
  split
  · simp_all
  · simp



/-- C4: for `Nx, Ny ≥ 2` the four outer groups are pairwise disjoint,
`add_physical_groups` builds exactly these groups plus the internal and
domain groups, their union with the internal group covers every realized
edge on the domain perimeter or with an excluded perpendicular neighbour,
and a realized edge that is neither on the perimeter nor
exclusion-adjacent lies in none of the five groups. -/
theorem boundary_groups_cover (Nx Ny : ℕ) (E : List (ℤ × ℤ))
    (hx : 2 ≤ Nx) (hy : 2 ≤ Ny) :
    (List.Disjoint (left_lines Ny E) (right_lines Nx Ny E) ∧
      List.Disjoint (left_lines Ny E) (bottom_lines Nx E) ∧
      List.Disjoint (left_lines Ny E) (top_lines Nx Ny E) ∧
      List.Disjoint (right_lines Nx Ny E) (bottom_lines Nx E) ∧
      List.Disjoint (right_lines Nx Ny E) (top_lines Nx Ny E) ∧
      List.Disjoint (bottom_lines Nx E) (top_lines Nx Ny E)) ∧
    (add_physical_groups Nx Ny (generate_lines Nx Ny E)
        (generate_surfaces Nx Ny E) E =
      { left := left_lines Ny E, right := right_lines Nx Ny E,
        bottom := bottom_lines Nx E, top := top_lines Nx Ny E,
        internal := add_special_boundary_group (generate_lines Nx Ny E) E
          [left_lines Ny E, right_lines Nx Ny E, bottom_lines Nx E,
            top_lines Nx Ny E],
        domain := generate_surfaces Nx Ny E }) ∧
    (∀ e ∈ generate_lines Nx Ny E,
      (onOuterBoundary Nx Ny e ∨ perpNeighborExcluded e E) →
      e ∈ left_lines Ny E ++ right_lines Nx Ny E ++ bottom_lines Nx E ++
        top_lines Nx Ny E ++
        (add_special_boundary_group (generate_lines Nx Ny E) E
          [left_lines Ny E, right_lines Nx Ny E, bottom_lines Nx E,
            top_lines Nx Ny E]).getD []) ∧
    (∀ e ∈ generate_lines Nx Ny E,
      ¬ onOuterBoundary Nx Ny e → ¬ perpNeighborExcluded e E →
      e ∉ left_lines Ny E ++ right_lines Nx Ny E ++ bottom_lines Nx E ++
        top_lines Nx Ny E ++
        (add_special_boundary_group (generate_lines Nx Ny E) E
          [left_lines Ny E, right_lines Nx Ny E, bottom_lines Nx E,
            top_lines Nx Ny E]).getD []) := by
  refine ⟨⟨?_, ?_, ?_, ?_, ?_, ?_⟩, rfl, ?_, ?_⟩
  · intro e h1 h2
    obtain ⟨j, hj, rfl, -, -⟩ := mem_left_lines.mp h1
    obtain ⟨j2, hj2, heq, -, -⟩ := mem_right_lines.mp h2
    simp only [Prod.mk.injEq] at heq
    omega
  · intro e h1 h2
    obtain ⟨j, hj, rfl, -, -⟩ := mem_left_lines.mp h1
    obtain ⟨i, hi, heq, -, -⟩ := mem_bottom_lines.mp h2
    simp only [Prod.mk.injEq] at heq
    omega
  · intro e h1 h2
    obtain ⟨j, hj, rfl, -, -⟩ := mem_left_lines.mp h1
    obtain ⟨i, hi, heq, -, -⟩ := mem_top_lines.mp h2
    simp only [Prod.mk.injEq] at heq
    omega
  · intro e h1 h2
    obtain ⟨j, hj, rfl, -, -⟩ := mem_right_lines.mp h1
    obtain ⟨i, hi, heq, -, -⟩ := mem_bottom_lines.mp h2
    simp only [Prod.mk.injEq] at heq
    omega
  · intro e h1 h2
    obtain ⟨j, hj, rfl, -, -⟩ := mem_right_lines.mp h1
    obtain ⟨i, hi, heq, -, -⟩ := mem_top_lines.mp h2
    simp only [Prod.mk.injEq] at heq
    omega
  · intro e h1 h2
    obtain ⟨i, hi, rfl, -, -⟩ := mem_bottom_lines.mp h1
    obtain ⟨i2, hi2, heq, -, -⟩ := mem_top_lines.mp h2
    simp only [Prod.mk.injEq] at heq
    omega
  · -- coverage
    intro e he hcov
    simp only [List.mem_append, mem_internal_getD]
    rcases hcov with houter | hperp
    · obtain ⟨hshape, hends⟩ := mem_generate_lines.mp he
      rcases hshape with ⟨i, hi, j, hj, rfl⟩ | ⟨i, hi, j, hj, rfl⟩
      · rcases houter with ⟨hiy, -⟩ | ⟨-, hj0⟩
        · exact absurd (show (i : ℤ) = (i : ℤ) + 1 from hiy) (by omega)
        · have h1 : ((i : ℤ), (j : ℤ)) ∉ E := hends _ (by simp [edgeEndpoints])
          have h2 : ((i : ℤ) + 1, (j : ℤ)) ∉ E :=
            hends _ (by simp [edgeEndpoints])
          rcases hj0 with hj0 | hj0
          · have hj0' : (j : ℤ) = 0 := hj0
            exact Or.inl (Or.inl (Or.inr (mem_bottom_lines.mpr
              ⟨i, hi, by simp [hj0'], by rwa [hj0'] at h1,
                by rwa [hj0'] at h2⟩)))
          · have hj0' : (j : ℤ) = (Ny : ℤ) - 1 := hj0
            exact Or.inl (Or.inr (mem_top_lines.mpr
              ⟨i, hi, by simp [hj0'], by rwa [hj0'] at h1,
                by rwa [hj0'] at h2⟩))
      · rcases houter with ⟨-, hi0⟩ | ⟨hjx, -⟩
        · have h1 : ((i : ℤ), (j : ℤ)) ∉ E := hends _ (by simp [edgeEndpoints])
          have h2 : ((i : ℤ), (j : ℤ) + 1) ∉ E :=
            hends _ (by simp [edgeEndpoints])
          rcases hi0 with hi0 | hi0
          · have hi0' : (i : ℤ) = 0 := hi0
            exact Or.inl (Or.inl (Or.inl (Or.inl (mem_left_lines.mpr
              ⟨j, hj, by simp [hi0'], by rwa [hi0'] at h1,
                by rwa [hi0'] at h2⟩))))
          · have hi0' : (i : ℤ) = (Nx : ℤ) - 1 := hi0
            exact Or.inl (Or.inl (Or.inl (Or.inr (mem_right_lines.mpr
              ⟨j, hj, by simp [hi0'], by rwa [hi0'] at h1,
                by rwa [hi0'] at h2⟩))))
        · exact absurd (show (j : ℤ) = (j : ℤ) + 1 from hjx) (by omega)
    · by_cases hg : e ∈ left_lines Ny E ∨ e ∈ right_lines Nx Ny E ∨
          e ∈ bottom_lines Nx E ∨ e ∈ top_lines Nx Ny E
      · tauto
      · push_neg at hg
        refine Or.inr (mem_special_lines_generate.mpr ⟨he, ?_, hperp⟩)
        intro hflat
        rw [List.mem_flatten] at hflat
        obtain ⟨l, hl, hel⟩ := hflat
        simp only [List.mem_cons, List.not_mem_nil, or_false] at hl
        rcases hl with rfl | rfl | rfl | rfl
        · exact hg.1 hel
        · exact hg.2.1 hel
        · exact hg.2.2.1 hel
        · exact hg.2.2.2 hel
  · -- fully interior edges are in no group
    intro e he hnout hnperp hmem
    simp only [List.mem_append, mem_internal_getD] at hmem
    rcases hmem with ((((hl | hr) | hb) | ht) | hs)
    · obtain ⟨j, hj, rfl, -, -⟩ := mem_left_lines.mp hl
      exact hnout (Or.inl ⟨rfl, Or.inl rfl⟩)
    · obtain ⟨j, hj, rfl, -, -⟩ := mem_right_lines.mp hr
      exact hnout (Or.inl ⟨rfl, Or.inr rfl⟩)
    · obtain ⟨i, hi, rfl, -, -⟩ := mem_bottom_lines.mp hb
      exact hnout (Or.inr ⟨rfl, Or.inl rfl⟩)
    · obtain ⟨i, hi, rfl, -, -⟩ := mem_top_lines.mp ht
      exact hnout (Or.inr ⟨rfl, Or.inr rfl⟩)
    · exact hnperp (mem_special_lines_generate.mp hs).2.2



/-- Witness for C4 at `Nx = Ny = 3`, `E = [(0, 0)]`. -/
theorem boundary_groups_cover_witness :
    (List.Disjoint (left_lines 3 [((0 : ℤ), (0 : ℤ))])
        (right_lines 3 3 [((0 : ℤ), (0 : ℤ))]) ∧
      List.Disjoint (left_lines 3 [((0 : ℤ), (0 : ℤ))])
        (bottom_lines 3 [((0 : ℤ), (0 : ℤ))]) ∧
      List.Disjoint (left_lines 3 [((0 : ℤ), (0 : ℤ))])
        (top_lines 3 3 [((0 : ℤ), (0 : ℤ))]) ∧
      List.Disjoint (right_lines 3 3 [((0 : ℤ), (0 : ℤ))])
        (bottom_lines 3 [((0 : ℤ), (0 : ℤ))]) ∧
      List.Disjoint (right_lines 3 3 [((0 : ℤ), (0 : ℤ))])
        (top_lines 3 3 [((0 : ℤ), (0 : ℤ))]) ∧
      List.Disjoint (bottom_lines 3 [((0 : ℤ), (0 : ℤ))])
        (top_lines 3 3 [((0 : ℤ), (0 : ℤ))])) ∧
    (add_physical_groups 3 3 (generate_lines 3 3 [((0 : ℤ), (0 : ℤ))])
        (generate_surfaces 3 3 [((0 : ℤ), (0 : ℤ))]) [((0 : ℤ), (0 : ℤ))] =
      { left := left_lines 3 [((0 : ℤ), (0 : ℤ))],
        right := right_lines 3 3 [((0 : ℤ), (0 : ℤ))],
        bottom := bottom_lines 3 [((0 : ℤ), (0 : ℤ))],
        top := top_lines 3 3 [((0 : ℤ), (0 : ℤ))],
        internal := add_special_boundary_group
          (generate_lines 3 3 [((0 : ℤ), (0 : ℤ))]) [((0 : ℤ), (0 : ℤ))]
          [left_lines 3 [((0 : ℤ), (0 : ℤ))],
            right_lines 3 3 [((0 : ℤ), (0 : ℤ))],
            bottom_lines 3 [((0 : ℤ), (0 : ℤ))],
            top_lines 3 3 [((0 : ℤ), (0 : ℤ))]],
        domain := generate_surfaces 3 3 [((0 : ℤ), (0 : ℤ))] }) ∧
    (∀ e ∈ generate_lines 3 3 [((0 : ℤ), (0 : ℤ))],
      (onOuterBoundary 3 3 e ∨ perpNeighborExcluded e [((0 : ℤ), (0 : ℤ))]) →
      e ∈ left_lines 3 [((0 : ℤ), (0 : ℤ))] ++
        right_lines 3 3 [((0 : ℤ), (0 : ℤ))] ++
        bottom_lines 3 [((0 : ℤ), (0 : ℤ))] ++
        top_lines 3 3 [((0 : ℤ), (0 : ℤ))] ++
        (add_special_boundary_group (generate_lines 3 3 [((0 : ℤ), (0 : ℤ))])
          [((0 : ℤ), (0 : ℤ))]
          [left_lines 3 [((0 : ℤ), (0 : ℤ))],
            right_lines 3 3 [((0 : ℤ), (0 : ℤ))],
            bottom_lines 3 [((0 : ℤ), (0 : ℤ))],
            top_lines 3 3 [((0 : ℤ), (0 : ℤ))]]).getD []) ∧
    (∀ e ∈ generate_lines 3 3 [((0 : ℤ), (0 : ℤ))],
      ¬ onOuterBoundary 3 3 e →
      ¬ perpNeighborExcluded e [((0 : ℤ), (0 : ℤ))] →
      e ∉ left_lines 3 [((0 : ℤ), (0 : ℤ))] ++
        right_lines 3 3 [((0 : ℤ), (0 : ℤ))] ++
        bottom_lines 3 [((0 : ℤ), (0 : ℤ))] ++
        top_lines 3 3 [((0 : ℤ), (0 : ℤ))] ++
        (add_special_boundary_group (generate_lines 3 3 [((0 : ℤ), (0 : ℤ))])
          [((0 : ℤ), (0 : ℤ))]
          [left_lines 3 [((0 : ℤ), (0 : ℤ))],
            right_lines 3 3 [((0 : ℤ), (0 : ℤ))],
            bottom_lines 3 [((0 : ℤ), (0 : ℤ))],
            top_lines 3 3 [((0 : ℤ), (0 : ℤ))]]).getD []) :=
  boundary_groups_cover 3 3 [((0 : ℤ), (0 : ℤ))] (by norm_num) (by norm_num)

/-! ## The grading solver `generate_data`

The source fixes `growth_rate = 1.4`, `num_y_prog = 4`, `num_x = 4`,
`ymin = -1.0`, `ymax = 1.0`, `xlen = 2.0` and computes the near-wall
grading from the flow regime, the Reynolds number `Re`, the element
parameter `nelq` and the wall-distance target `yplus`. -/

/-- Source constant `growth_rate = 1.4`. -/
def growth_rate : ℝ := 1.4

/-- Source constant `num_y_prog = 4` (node count of each graded lane). -/
def num_y_prog : ℕ := 4

/-- Source constant `num_x = 4` (node count of each far-field lane). -/
def num_x : ℕ := 4

/-- Source constant `ymin = -1.0`. -/
def ymin : ℝ := -1

/-- Source constant `ymax = 1.0`. -/
def ymax : ℝ := 1

/-- Source constant `xlen = 2.0` (arm length of the cross). -/
def xlen : ℝ := 2

/-- `ytilde`: the regime-dependent wall-distance scale,
`yplus / sqrt(3 * Re)` for laminar flow and `yplus * 20 / Re` for
turbulent flow. -/
noncomputable def ytilde (laminar : Bool) (Re yplus : ℝ) : ℝ :=
  if laminar then yplus / Real.sqrt (3 * Re) else yplus * 20 / Re

/-- `y0 = ytilde * nelq`: the first-layer height. -/
noncomputable def y0 (laminar : Bool) (Re : ℝ) (nelq : ℕ) (yplus : ℝ) : ℝ :=
  ytilde laminar Re yplus * nelq

/-- The `dyprog` accumulation loop of `generate_data`, abstracted over the
first-layer height `h`, the growth rate `r` and the graded-lane node count
`m` (`num_y_prog` in the source): the source's
`for i in range(num_y_prog - 1): dyprog += y0 * growth_rate**i`, so the
cumulative graded length is the sum of the `m - 1` layer heights
`h * r^0, …, h * r^(m-2)` (a transfinite lane with `m` nodes has `m - 1`
element layers). -/
noncomputable def gradedCumulative (h r : ℝ) (m : ℕ) : ℝ :=
  (List.range (m - 1)).foldl (fun acc i => acc + h * r ^ i) 0

/-- `dyprog` of `generate_data`. -/
noncomputable def dyprog (laminar : Bool) (Re : ℝ) (nelq : ℕ)
    (yplus : ℝ) : ℝ :=
  gradedCumulative (y0 laminar Re nelq yplus) growth_rate num_y_prog

/-- `dy1 = y0 * growth_rate ** (num_y_prog - 1)`: the height of the final
graded layer, used to size the constant region. -/
noncomputable def dy1 (laminar : Bool) (Re : ℝ) (nelq : ℕ) (yplus : ℝ) :
    ℝ :=
  y0 laminar Re nelq yplus * growth_rate ^ (num_y_prog - 1)

/-- `dycst = ymax - ymin - 2 * dyprog`: the length of the constant-spacing
region between the two graded blocks. -/
noncomputable def dycst (laminar : Bool) (Re : ℝ) (nelq : ℕ) (yplus : ℝ) :
    ℝ :=
  ymax - ymin - 2 * dyprog laminar Re nelq yplus

/-- `num_y_cst = int(np.ceil(dycst / dy1)) + 1`: the node count of the
constant lane. -/
noncomputable def num_y_cst (laminar : Bool) (Re : ℝ) (nelq : ℕ)
    (yplus : ℝ) : ℤ :=
  ⌈dycst laminar Re nelq yplus / dy1 laminar Re nelq yplus⌉ + 1

/-- The tuple returned by `generate_data`. -/
structure GenData where
  coord_x : List ℝ
  coord_y : List ℝ
  disc_x : List ℤ
  disc_y : List ℤ
  prog_x : List ℝ
  prog_y : List ℝ
  exclude : List (ℤ × ℤ)

/-- `generate_data`: the grading solver.  The exclusion list uses
`len(coord_x) - 1 = 5`. -/
noncomputable def generate_data (laminar : Bool) (Re : ℝ) (nelq : ℕ := 7)
    (yplus : ℝ := 1) : GenData :=
  { coord_x := [-xlen + ymin, ymin,
      ymin + dyprog laminar Re nelq yplus,
      ymin + dyprog laminar Re nelq yplus + dycst laminar Re nelq yplus,
      ymax, ymax + xlen],
    coord_y := [-xlen + ymin, ymin,
      ymin + dyprog laminar Re nelq yplus,
      ymin + dyprog laminar Re nelq yplus + dycst laminar Re nelq yplus,
      ymax, ymax + xlen],
    disc_x := [(num_x : ℤ), (num_y_prog : ℤ), num_y_cst laminar Re nelq yplus,
      (num_y_prog : ℤ), (num_x : ℤ)],
    disc_y := [(num_x : ℤ), (num_y_prog : ℤ), num_y_cst laminar Re nelq yplus,
      (num_y_prog : ℤ), (num_x : ℤ)],
    prog_x := [1, growth_rate, 1, 1 / growth_rate, 1],
    prog_y := [1, growth_rate, 1, 1 / growth_rate, 1],
    exclude := [(0, 0), (5, 0), (0, 5), (5, 5)] }

/-- The source's loop is the finite geometric sum. -/
theorem foldl_add_eq_sum (f : ℕ → ℝ) (n : ℕ) :
    (List.range n).foldl (fun acc i => acc + f i) 0 =
      ∑ i ∈ Finset.range n, f i := by
  induction n with
  | zero => simp
  | succ k ih =>
    rw [List.range_succ, List.foldl_append, ih, Finset.sum_range_succ]
    rfl

/-- `gradedCumulative` as a closed sum. -/
theorem gradedCumulative_eq_sum (h r : ℝ) (m : ℕ) :
    gradedCumulative h r m = ∑ i ∈ Finset.range (m - 1), h * r ^ i := by
  rw [gradedCumulative, foldl_add_eq_sum]

/-- `gradedCumulative` at the source's `num_y_prog = 4`. -/
theorem gradedCumulative_four (h r : ℝ) :
    gradedCumulative h r 4 = h + h * r + h * r ^ 2 := by
  rw [gradedCumulative_eq_sum]
  norm_num [Finset.sum_range_succ]

/-- C5: for `n` graded layers at growth rate `r` and first-layer height
`h` (a graded lane with `num_y_prog = n + 1` transfinite nodes has `n`
element layers, and the source's loop sums exactly those `n` heights),
the cumulative graded length is `n * h` when `r = 1` and
`h * (r^n - 1) / (r - 1)` when `r > 1`. -/
theorem graded_cumulative_closed_form (h r : ℝ) (n : ℕ) :
    (r = 1 → gradedCumulative h r (n + 1) = n * h) ∧
    (r > 1 → gradedCumulative h r (n + 1) = h * (r ^ n - 1) / (r - 1)) := by
  constructor
  · rintro rfl
    rw [gradedCumulative_eq_sum]
    simp [mul_comm]
  · intro hr
    rw [gradedCumulative_eq_sum, ← Finset.mul_sum]
    simp only [Nat.add_sub_cancel]
    rw [geom_sum_eq (ne_of_gt hr), mul_div_assoc]



/-- C6: the constant lane's count in `generate_data`'s discretization
array is `⌈dycst / dy1⌉ + 1` (`dycst` the remaining core length after the
two graded blocks, `dy1` the final graded-layer height), and consequently
the constant-region element size `dycst / (num_y_cst - 1)` never exceeds
`dy1`. -/
theorem constant_region_resolution (laminar : Bool) (Re yplus : ℝ)
    (nelq : ℕ) (h1 : 0 < dy1 laminar Re nelq yplus)
    (h2 : 0 < dycst laminar Re nelq yplus) :
    (generate_data laminar Re nelq yplus).disc_y =
      [(num_x : ℤ), (num_y_prog : ℤ),
        ⌈dycst laminar Re nelq yplus / dy1 laminar Re nelq yplus⌉ + 1,
        (num_y_prog : ℤ), (num_x : ℤ)] ∧
    dycst laminar Re nelq yplus /
        ((num_y_cst laminar Re nelq yplus : ℝ) - 1) ≤
      dy1 laminar Re nelq yplus := by
  refine ⟨rfl, ?_⟩
  set c := dycst laminar Re nelq yplus with hc
  set d := dy1 laminar Re nelq yplus with hd
  have hceil : c / d ≤ (⌈c / d⌉ : ℝ) := Int.le_ceil _
  have hxpos : (0 : ℝ) < c / d := div_pos h2 h1
  have hcpos : (0 : ℝ) < (⌈c / d⌉ : ℝ) := lt_of_lt_of_le hxpos hceil
  have hcast : ((num_y_cst laminar Re nelq yplus : ℝ) - 1) = (⌈c / d⌉ : ℝ) := by
    rw [num_y_cst]
    push_cast
    ring
  rw [hcast, div_le_iff₀ hcpos]
  calc c = c / d * d := by field_simp
    _ ≤ (⌈c / d⌉ : ℝ) * d := mul_le_mul_of_nonneg_right hceil h1.le
    _ = d * (⌈c / d⌉ : ℝ) := mul_comm _ _



/-- Witness for C6 at `laminar = false`, `Re = 1000`, `nelq = 1`,
`yplus = 1` (all quantities rational there). -/
theorem constant_region_resolution_witness :
    (0 : ℝ) < dy1 false 1000 1 1 ∧ (0 : ℝ) < dycst false 1000 1 1 ∧
    ((generate_data false 1000 1 1).disc_y =
      [(num_x : ℤ), (num_y_prog : ℤ),
        ⌈dycst false 1000 1 1 / dy1 false 1000 1 1⌉ + 1,
        (num_y_prog : ℤ), (num_x : ℤ)] ∧
    dycst false 1000 1 1 / ((num_y_cst false 1000 1 1 : ℝ) - 1) ≤
      dy1 false 1000 1 1) := by
  have h1 : (0 : ℝ) < dy1 false 1000 1 1 := by
    norm_num [dy1, y0, ytilde, growth_rate, num_y_prog]
  have h2 : (0 : ℝ) < dycst false 1000 1 1 := by
    norm_num [dycst, dyprog, num_y_prog, gradedCumulative_four, y0, ytilde,
      growth_rate, ymin, ymax]
  exact ⟨h1, h2, constant_region_resolution false 1000 1 1 h1 h2⟩



/-- C7: the first-cell height `y0` equals `yplus * nelq / sqrt(3 * Re)`
in the laminar regime and `yplus * 20 * nelq / Re` in the turbulent
regime; for laminar `Re = 1000`, `yplus = 1`, `nelq = 7` it equals
`7 / sqrt 3000`. -/
theorem first_cell_height (Re yplus : ℝ) (nelq : ℕ)
    (hRe : 0 < Re) (hy : 0 < yplus) :
    y0 true Re nelq yplus = yplus * nelq / Real.sqrt (3 * Re) ∧
    y0 false Re nelq yplus = yplus * 20 * nelq / Re ∧
    y0 true 1000 7 1 = 7 / Real.sqrt 3000 := by
  refine ⟨?_, ?_, ?_⟩
  · rw [y0, ytilde]
    simp [div_mul_eq_mul_div]
  · rw [y0, ytilde]
    simp [div_mul_eq_mul_div]
  · rw [y0, ytilde]
    norm_num [div_mul_eq_mul_div, inv_mul_eq_div]

/-- Witness for C7 at `Re = 1000`, `yplus = 1`, `nelq = 7`. -/
theorem first_cell_height_witness :
    y0 true 1000 7 1 = 1 * (7 : ℕ) / Real.sqrt (3 * 1000) ∧
    y0 false 1000 7 1 = 1 * 20 * (7 : ℕ) / 1000 ∧
    y0 true 1000 7 1 = 7 / Real.sqrt 3000 :=
  first_cell_height 1000 1 7 (by norm_num) (by norm_num)



/-- C8 counterexample: each axis returned by `generate_data` has six
breakpoints, not five. -/
theorem five_breakpoint_claim_false :
    (generate_data true 1000 7 1).coord_x.length ≠ 5 ∧
    (generate_data true 1000 7 1).coord_x.length = 6 := by
  constructor <;> simp [generate_data]

/-- C8 (amended): each axis has six breakpoints (delimiting the five
lanes far-field, graded-in, constant, graded-out, far-field), symmetric
about the domain midpoint (`breakpoint[k] + breakpoint[5-k]` equals twice
the midpoint for every `k`), and the growth-rate arrays are
`[1, r, 1, 1/r, 1]` with `array[k] = 1 / array[4-k]` for every lane. -/
theorem axis_symmetry (laminar : Bool) (Re yplus : ℝ) (nelq : ℕ) :
    (generate_data laminar Re nelq yplus).coord_x.length = 6 ∧
    (generate_data laminar Re nelq yplus).coord_y =
      (generate_data laminar Re nelq yplus).coord_x ∧
    (∀ k < 6, (generate_data laminar Re nelq yplus).coord_x.getD k 0 +
        (generate_data laminar Re nelq yplus).coord_x.getD (5 - k) 0 =
      2 * ((ymin + ymax) / 2)) ∧
    (generate_data laminar Re nelq yplus).prog_x =
      [1, growth_rate, 1, 1 / growth_rate, 1] ∧
    (generate_data laminar Re nelq yplus).prog_y =
      (generate_data laminar Re nelq yplus).prog_x ∧
    (∀ k < 5, (generate_data laminar Re nelq yplus).prog_x.getD k 0 =
      1 / (generate_data laminar Re nelq yplus).prog_x.getD (4 - k) 0) := by
  refine ⟨by simp [generate_data], rfl, ?_, rfl, rfl, ?_⟩
  · intro k hk
    interval_cases k <;>
      (simp [generate_data, dycst, ymin, ymax, xlen]; try ring)
  · intro k hk
    interval_cases k <;> norm_num [generate_data, growth_rate]



/-- C9: `generate_data` has no input validation.  At the invalid input
`laminar = true`, `Re = -1` it still returns a full tuple (in the real
model `sqrt` of a negative is `0`, so the axis degenerates; NumPy produces
NaNs) instead of rejecting it. -/
theorem generate_data_returns_on_invalid :
    (generate_data true (-1) 7 1).coord_y = [-3, -1, -1, 1, 1, 3] ∧
    (generate_data true (-1) 7 1).disc_y = [4, 4, 1, 4, 4] := by
  have hs : Real.sqrt (-3) = 0 := by
    exact Real.sqrt_eq_zero'.mpr (by norm_num)
  norm_num [generate_data, dycst, dyprog, num_y_cst, dy1, y0, ytilde,
    gradedCumulative_four, num_y_prog, num_x, growth_rate, ymin, ymax,
    xlen, hs]



/-- C10: for laminar inputs with `Re, yplus, nelq > 0` the returned axes
are strictly increasing iff the cumulative graded length `dyprog` is less
than half the core length `(ymax - ymin) / 2 = 1`; when `dyprog` reaches
that bound the axes are not strictly increasing, violating the
strictly-increasing Coordinate Axis assumption. -/
theorem coords_strictly_increasing_iff (Re yplus : ℝ) (nelq : ℕ)
    (hRe : 0 < Re) (hy : 0 < yplus) (hn : 0 < nelq) :
    ((generate_data true Re nelq yplus).coord_x.Chain' (· < ·) ↔
      dyprog true Re nelq yplus < (ymax - ymin) / 2) ∧
    ((generate_data true Re nelq yplus).coord_y.Chain' (· < ·) ↔
      dyprog true Re nelq yplus < (ymax - ymin) / 2) ∧
    (ymax - ymin) / 2 = 1 ∧
    ((ymax - ymin) / 2 ≤ dyprog true Re nelq yplus →
      ¬ (generate_data true Re nelq yplus).coord_x.Chain' (· < ·)) := by
  have hy0 : 0 < y0 true Re nelq yplus := by
    rw [y0, ytilde]
    have hs : 0 < Real.sqrt (3 * Re) := Real.sqrt_pos.mpr (by linarith)
    have hne : (0 : ℝ) < (nelq : ℝ) := by exact_mod_cast hn
    simp only [if_true]
    positivity
  have hp : 0 < dyprog true Re nelq yplus := by
    rw [dyprog, num_y_prog, gradedCumulative_four]
    norm_num [growth_rate]
    nlinarith [hy0]
  have hchain : (generate_data true Re nelq yplus).coord_x.Chain' (· < ·) ↔
      dyprog true Re nelq yplus < (ymax - ymin) / 2 := by
    simp only [generate_data, List.chain'_cons, List.chain'_singleton,
      and_true, dycst, ymin, ymax, xlen]
    constructor
    · rintro ⟨-, -, h3, -, -⟩
      norm_num
      linarith
    · intro h
      norm_num at h
      refine ⟨by norm_num, by linarith, by linarith, by linarith,
        by norm_num⟩
  refine ⟨hchain, hchain, by norm_num [ymin, ymax], fun h hc => ?_⟩
  have := hchain.mp hc
  linarith



/-- Witness for C10 at `Re = 1000`, `yplus = 1`, `nelq = 7`. -/
theorem coords_strictly_increasing_iff_witness :
    ((generate_data true 1000 7 1).coord_x.Chain' (· < ·) ↔
      dyprog true 1000 7 1 < (ymax - ymin) / 2) ∧
    ((generate_data true 1000 7 1).coord_y.Chain' (· < ·) ↔
      dyprog true 1000 7 1 < (ymax - ymin) / 2) ∧
    (ymax - ymin) / 2 = 1 ∧
    ((ymax - ymin) / 2 ≤ dyprog true 1000 7 1 →
      ¬ (generate_data true 1000 7 1).coord_x.Chain' (· < ·)) :=
  coords_strictly_increasing_iff 1000 1 7 (by norm_num) (by norm_num)
    (by norm_num)

end Cross
